import Mathlib

/-!
Verification of the SpellChain server against its specification.

The definitions below are a shallow embedding of the Python sources:
* `src/SpellChain/trie.py`            (dictionary trie, variant with an `is_word` flag)
* `src/SpellChain/wiktionary_impl/trie.py` (dictionary trie, definition-presence variant)
* `src/SpellChain/server.py`          (`GameRoom` and `SpellChainServer`)

Python strings are modelled as `List Char` where character-by-character
processing matters and as `String` for opaque message payloads.  Python dicts
are modelled as association lists keyed by their first occurrence, which
matches dict semantics as long as keys are unique (the code only ever creates
unique keys; lookups and updates below consistently use the first matching
entry, so the model is also well defined on arbitrary lists).  `str.lower`,
`str.upper` and `str.isalpha` are modelled on ASCII, which covers every input
the claims are about.
-/

namespace SpellChain

/-! ## Dictionary trie, main variant (`src/SpellChain/trie.py`) -/

/-- Embeds `TrieNode.__init__`: a children mapping (Python dict, modelled as an
association list in insertion order), the `is_word` flag and the optional
definition. -/
inductive TrieNode : Type where
  | node : List (Char × TrieNode) → Bool → Option String → TrieNode

def TrieNode.children : TrieNode → List (Char × TrieNode)
  | .node ch _ _ => ch

def TrieNode.is_word : TrieNode → Bool
  | .node _ b _ => b

def TrieNode.defn : TrieNode → Option String
  | .node _ _ d => d

/-- A freshly constructed `TrieNode()`. -/
def emptyNode : TrieNode := .node [] false none

/-- Python `dict.get`: the value stored under key `c`, first occurrence. -/
def childGet {α : Type} : List (Char × α) → Char → Option α
  | [], _ => none
  | (k, n) :: rest, c => if k = c then some n else childGet rest c

/-- Python `dict.__setitem__` / `dict.setdefault` result shape: replace the
(first) binding of `c` if present, otherwise append a new binding. -/
def setChild {α : Type} : List (Char × α) → Char → α → List (Char × α)
  | [], c, n => [(c, n)]
  | (k, m) :: rest, c, n =>
      if k = c then (k, n) :: rest else (k, m) :: setChild rest c n

/-- The `" OR "` separator (with ANSI colors) used by `DictionaryTrie.insert`
when a word is inserted twice. -/
def orSep : String := " \x1b[93mOR\x1b[0m "

/-- The tail of `DictionaryTrie.insert`: marking the node reached at the end of
the word.  In the Python code `is_word = True` always implies
`definition is not None`; `Option.getD` covers the unreachable other case. -/
def markWord (t : TrieNode) (d : String) : TrieNode :=
  match t with
  | .node ch iw df =>
      if iw then .node ch iw (some ((df.getD "") ++ orSep ++ d))
      else .node ch true (some d)

/-- Embeds `DictionaryTrie.insert`: walk/create the path for `word`
(`node.children.get(char) or node.children.setdefault(char, TrieNode())`),
then mark the final node. -/
def trieInsert : TrieNode → List Char → String → TrieNode
  | t, [], d => markWord t d
  | t, c :: cs, d =>
      .node (setChild t.children c
               (trieInsert ((childGet t.children c).getD emptyNode) cs d))
            t.is_word t.defn

/-- Embeds `DictionaryTrie._find_node`. -/
def findNode : TrieNode → List Char → Option TrieNode
  | t, [] => some t
  | t, c :: cs =>
      match childGet t.children c with
      | none => none
      | some n => findNode n cs

/-- Embeds `DictionaryTrie.search_word`:
`bool(node and node.is_word)`. -/
def search_word (t : TrieNode) (w : List Char) : Bool :=
  match findNode t w with
  | some n => n.is_word
  | none => false

/-- Embeds `DictionaryTrie.search_prefix` (named `searchMore` here):
`bool(node and node.children)`. -/
def searchMore (t : TrieNode) (p : List Char) : Bool :=
  match findNode t p with
  | some n => !n.children.isEmpty
  | none => false

/-- The sentinel returned by both trie variants when no definition exists. -/
def noDefMsg : String := "No definition available."

/-- Embeds `DictionaryTrie.get_definition`:
`node.definition if node and node.is_word else "No definition available."`.
The result is an `Option String` because the Python expression would produce
`None` if a node had `is_word` set but no definition (unreachable from the
constructors above, and the theorems show the result is always `some`). -/
def get_definition (t : TrieNode) (w : List Char) : Option String :=
  match findNode t w with
  | some n => if n.is_word then n.defn else some noDefMsg
  | none => some noDefMsg

/-- A trie built by a sequence of `insert` calls starting from a fresh
`DictionaryTrie()`. -/
def buildTrie (ws : List (List Char × String)) : TrieNode :=
  ws.foldl (fun t wd => trieInsert t wd.1 wd.2) emptyNode

/-! ## Lemmas about the children association list -/

@[simp] theorem children_node (ch : List (Char × TrieNode)) (iw : Bool) (df : Option String) :
    (TrieNode.node ch iw df).children = ch := rfl

@[simp] theorem is_word_node (ch : List (Char × TrieNode)) (iw : Bool) (df : Option String) :
    (TrieNode.node ch iw df).is_word = iw := rfl

@[simp] theorem defn_node (ch : List (Char × TrieNode)) (iw : Bool) (df : Option String) :
    (TrieNode.node ch iw df).defn = df := rfl

theorem childGet_setChild_eq {α : Type} (l : List (Char × α)) (c : Char) (n : α) :
    childGet (setChild l c n) c = some n := by
  induction l with
  | nil => simp [setChild, childGet]
  | cons hd tl ih =>
      obtain ⟨k, m⟩ := hd
      by_cases h : k = c <;> simp [setChild, childGet, h, ih]

theorem childGet_setChild_ne {α : Type} (l : List (Char × α)) (c q : Char) (n : α)
    (h : q ≠ c) : childGet (setChild l c n) q = childGet l q := by
  have hcq : ¬ c = q := fun hh => h hh.symm
  induction l with
  | nil => simp [setChild, childGet, hcq]
  | cons hd tl ih =>
      obtain ⟨k, m⟩ := hd
      by_cases hk : k = c
      · subst hk
        simp [setChild, childGet, hcq]
      · simp [setChild, childGet, hk, ih]

theorem childGet_isSome_iff_ne_nil {α : Type} (l : List (Char × α)) :
    (∃ c, (childGet l c).isSome) ↔ l ≠ [] := by
  constructor
  · rintro ⟨c, hc⟩ rfl
    simp [childGet] at hc
  · intro h
    match l with
    | (k, m) :: rest => exact ⟨k, by simp [childGet]⟩

/-! ## Per-insert lemmas for the main trie -/

theorem markWord_children (t : TrieNode) (d : String) :
    (markWord t d).children = t.children := by
  cases t with
  | node ch iw df => by_cases h : iw <;> simp [markWord, h, TrieNode.children]

theorem markWord_is_word (t : TrieNode) (d : String) :
    (markWord t d).is_word = true := by
  cases t with
  | node ch iw df => by_cases h : iw <;> simp [markWord, h, TrieNode.is_word]

theorem findNode_cons (t : TrieNode) (c : Char) (cs : List Char) :
    findNode t (c :: cs) =
      match childGet t.children c with
      | none => none
      | some n => findNode n cs := rfl

theorem findNode_markWord_cons (t : TrieNode) (d : String) (c : Char) (cs : List Char) :
    findNode (markWord t d) (c :: cs) = findNode t (c :: cs) := by
  rw [findNode_cons, findNode_cons, markWord_children]

theorem findNode_emptyNode (s : List Char) :
    findNode emptyNode s = if s = [] then some emptyNode else none := by
  cases s with
  | nil => simp [findNode]
  | cons c cs => simp [findNode_cons, emptyNode, TrieNode.children, childGet]

theorem search_word_emptyNode (s : List Char) : search_word emptyNode s = false := by
  cases s with
  | nil => simp [search_word, findNode, emptyNode, TrieNode.is_word]
  | cons c cs => simp [search_word, findNode_emptyNode]

theorem search_word_markWord_cons (t : TrieNode) (d : String) (c : Char) (cs : List Char) :
    search_word (markWord t d) (c :: cs) = search_word t (c :: cs) := by
  unfold search_word
  rw [findNode_markWord_cons]

theorem trieInsert_nil (t : TrieNode) (d : String) :
    trieInsert t [] d = markWord t d := rfl

theorem trieInsert_cons (t : TrieNode) (b : Char) (w' : List Char) (d : String) :
    trieInsert t (b :: w') d =
      .node (setChild t.children b
               (trieInsert ((childGet t.children b).getD emptyNode) w' d))
            t.is_word t.defn := rfl

theorem search_word_congr {t1 t2 : TrieNode} {s1 s2 : List Char}
    (h : findNode t1 s1 = findNode t2 s2) : search_word t1 s1 = search_word t2 s2 := by
  unfold search_word
  rw [h]

theorem searchMore_congr {t1 t2 : TrieNode} {s1 s2 : List Char}
    (h : findNode t1 s1 = findNode t2 s2) : searchMore t1 s1 = searchMore t2 s2 := by
  unfold searchMore
  rw [h]

theorem get_definition_congr {t1 t2 : TrieNode} {s1 s2 : List Char}
    (h : findNode t1 s1 = findNode t2 s2) : get_definition t1 s1 = get_definition t2 s2 := by
  unfold get_definition
  rw [h]

theorem findNode_insert_cons_eq (t : TrieNode) (b : Char) (w' : List Char) (d : String)
    (s' : List Char) :
    findNode (trieInsert t (b :: w') d) (b :: s') =
      findNode (trieInsert ((childGet t.children b).getD emptyNode) w' d) s' := by
  rw [trieInsert_cons, findNode_cons]
  simp [childGet_setChild_eq]

theorem findNode_insert_cons_ne (t : TrieNode) (b : Char) (w' : List Char) (d : String)
    (a : Char) (s' : List Char) (hab : a ≠ b) :
    findNode (trieInsert t (b :: w') d) (a :: s') = findNode t (a :: s') := by
  rw [trieInsert_cons, findNode_cons, findNode_cons]
  simp only [children_node]
  rw [childGet_setChild_ne _ _ _ _ hab]

theorem findNode_cons_some {t n : TrieNode} {b : Char} (s' : List Char)
    (hc : childGet t.children b = some n) : findNode t (b :: s') = findNode n s' := by
  rw [findNode_cons, hc]

theorem findNode_cons_none {t : TrieNode} {b : Char} (s' : List Char)
    (hc : childGet t.children b = none) : findNode t (b :: s') = none := by
  rw [findNode_cons, hc]

/-- Inserting `w` creates exactly the path nodes for the prefixes of `w` and
otherwise leaves path existence untouched. -/
theorem findNode_insert_isSome (w : List Char) : ∀ (t : TrieNode) (s : List Char) (d : String),
    (findNode (trieInsert t w d) s).isSome ↔ (findNode t s).isSome ∨ s <+: w := by
  induction w with
  | nil =>
      intro t s d
      cases s with
      | nil => simp [findNode]
      | cons a s' =>
          rw [trieInsert_nil, findNode_markWord_cons]
          simp
  | cons b w' ih =>
      intro t s d
      cases s with
      | nil => simp [findNode]
      | cons a s' =>
          by_cases hab : a = b
          · subst hab
            rw [findNode_insert_cons_eq, ih]
            cases hc : childGet t.children a with
            | some n =>
                rw [Option.getD_some] at *
                rw [findNode_cons_some s' hc]
                simp [List.cons_prefix_cons]
            | none =>
                rw [Option.getD_none, findNode_emptyNode, findNode_cons_none s' hc]
                by_cases hs : s' = [] <;> simp [hs, List.cons_prefix_cons]
          · rw [findNode_insert_cons_ne _ _ _ _ _ _ hab]
            simp [List.cons_prefix_cons, hab]

/-- Inserting `w` marks exactly `w` as a word and preserves every other word
flag. -/
theorem search_word_insert (w : List Char) : ∀ (t : TrieNode) (s : List Char) (d : String),
    search_word (trieInsert t w d) s = true ↔ search_word t s = true ∨ s = w := by
  induction w with
  | nil =>
      intro t s d
      cases s with
      | nil =>
          simp [search_word, findNode, trieInsert_nil, markWord_is_word]
      | cons a s' =>
          rw [trieInsert_nil, search_word_markWord_cons]
          simp
  | cons b w' ih =>
      intro t s d
      cases s with
      | nil =>
          cases t with
          | node ch iw df => simp [search_word, findNode, trieInsert_cons]
      | cons a s' =>
          by_cases hab : a = b
          · subst hab
            rw [search_word_congr (findNode_insert_cons_eq t a w' d s'), ih]
            cases hc : childGet t.children a with
            | some n =>
                rw [Option.getD_some, search_word_congr (findNode_cons_some s' hc)]
                simp
            | none =>
                rw [Option.getD_none]
                have h1 : search_word t (a :: s') = false := by
                  unfold search_word
                  rw [findNode_cons_none s' hc]
                rw [h1, search_word_emptyNode]
                simp
          · rw [search_word_congr (findNode_insert_cons_ne t b w' d a s' hab)]
            simp [hab]

/-! ## Characterizations of tries built from a word list -/

theorem findNode_append_one (s : List Char) : ∀ (t : TrieNode) (c : Char),
    findNode t (s ++ [c]) = (findNode t s).bind (fun n => childGet n.children c) := by
  induction s with
  | nil =>
      intro t c
      cases hc : childGet t.children c with
      | some n => simp [findNode, findNode_cons_some [] hc, hc]
      | none => simp [findNode, findNode_cons_none [] hc, hc]
  | cons a s' ih =>
      intro t c
      cases hc : childGet t.children a with
      | some n =>
          rw [List.cons_append, findNode_cons_some (s' ++ [c]) hc, findNode_cons_some s' hc, ih]
      | none =>
          rw [List.cons_append, findNode_cons_none (s' ++ [c]) hc, findNode_cons_none s' hc]
          simp

theorem searchMore_iff_exists (t : TrieNode) (s : List Char) :
    searchMore t s = true ↔ ∃ c, (findNode t (s ++ [c])).isSome := by
  unfold searchMore
  cases hf : findNode t s with
  | none => simp [findNode_append_one, hf]
  | some n =>
      simp only [findNode_append_one, hf, Option.some_bind]
      constructor
      · intro h
        have hne : n.children ≠ [] := by
          cases hch : n.children with
          | nil => rw [hch] at h; simp at h
          | cons p rest => simp [hch]
        obtain ⟨c, hc⟩ := (childGet_isSome_iff_ne_nil n.children).mpr hne
        exact ⟨c, hc⟩
      · rintro ⟨c, hc⟩
        have hne := (childGet_isSome_iff_ne_nil n.children).mp ⟨c, hc⟩
        cases hch : n.children with
        | nil => exact absurd hch hne
        | cons p rest => simp [hch]

theorem findNode_foldl_isSome (ws : List (List Char × String)) :
    ∀ (t : TrieNode) (s : List Char),
      (findNode (ws.foldl (fun t wd => trieInsert t wd.1 wd.2) t) s).isSome ↔
        (findNode t s).isSome ∨ ∃ wd, wd ∈ ws ∧ s <+: wd.1 := by
  induction ws with
  | nil => simp
  | cons wd ws ih =>
      intro t s
      rw [List.foldl_cons, ih, findNode_insert_isSome]
      constructor
      · rintro (( h | h ) | ⟨x, hx, hp⟩)
        · exact Or.inl h
        · exact Or.inr ⟨wd, by simp, h⟩
        · exact Or.inr ⟨x, by simp [hx], hp⟩
      · rintro (h | ⟨x, hx, hp⟩)
        · exact Or.inl (Or.inl h)
        · rcases List.mem_cons.mp hx with h1 | h1
          · exact Or.inl (Or.inr (h1 ▸ hp))
          · exact Or.inr ⟨x, h1, hp⟩

theorem search_word_foldl (ws : List (List Char × String)) :
    ∀ (t : TrieNode) (s : List Char),
      search_word (ws.foldl (fun t wd => trieInsert t wd.1 wd.2) t) s = true ↔
        search_word t s = true ∨ ∃ d, (s, d) ∈ ws := by
  induction ws with
  | nil => simp
  | cons wd ws ih =>
      intro t s
      rw [List.foldl_cons, ih, search_word_insert]
      constructor
      · rintro (( h | h ) | ⟨d, hd⟩)
        · exact Or.inl h
        · exact Or.inr ⟨wd.2, by simp [h]⟩
        · exact Or.inr ⟨d, by simp [hd]⟩
      · rintro (h | ⟨d, hd⟩)
        · exact Or.inl (Or.inl h)
        · rcases List.mem_cons.mp hd with h1 | h1
          · refine Or.inl (Or.inr ?_)
            have : wd = (s, d) := h1.symm
            rw [this]
          · exact Or.inr ⟨d, h1⟩

theorem findNode_build_isSome (ws : List (List Char × String)) (s : List Char) :
    (findNode (buildTrie ws) s).isSome ↔ s = [] ∨ ∃ wd, wd ∈ ws ∧ s <+: wd.1 := by
  unfold buildTrie
  rw [findNode_foldl_isSome, findNode_emptyNode]
  by_cases hs : s = [] <;> simp [hs]

theorem search_word_build (ws : List (List Char × String)) (s : List Char) :
    search_word (buildTrie ws) s = true ↔ ∃ d, (s, d) ∈ ws := by
  unfold buildTrie
  rw [search_word_foldl, search_word_emptyNode]
  simp

/-- `search_prefix` on a built trie holds exactly when some strictly longer
inserted word extends the query. -/
theorem searchMore_build (ws : List (List Char × String)) (s : List Char) :
    searchMore (buildTrie ws) s = true ↔
      ∃ wd, wd ∈ ws ∧ s <+: wd.1 ∧ s.length < wd.1.length := by
  rw [searchMore_iff_exists]
  constructor
  · rintro ⟨c, hc⟩
    rw [findNode_build_isSome] at hc
    rcases hc with h | ⟨wd, hw, hp⟩
    · exact absurd h (by simp)
    · refine ⟨wd, hw, ?_, ?_⟩
      · exact (show s <+: s ++ [c] from ⟨[c], rfl⟩).trans hp
      · have := hp.length_le
        simp only [List.length_append, List.length_singleton] at this
        omega
  · rintro ⟨wd, hw, hp, hlen⟩
    obtain ⟨tail, htail⟩ := hp
    cases tail with
    | nil => simp [← htail] at hlen
    | cons c cts =>
        refine ⟨c, ?_⟩
        rw [findNode_build_isSome]
        exact Or.inr ⟨wd, hw, ⟨cts, by rw [← htail]; simp⟩⟩

/-- Inserting a word that is not yet marked stores its definition at exactly
that word and changes no other lookup. -/
theorem get_definition_insert (w : List Char) : ∀ (t : TrieNode) (s : List Char) (d : String),
    search_word t w = false →
      get_definition (trieInsert t w d) s = if s = w then some d else get_definition t s := by
  induction w with
  | nil =>
      intro t s d hw
      cases t with
      | node ch iw df =>
          have hiw : iw = false := by simpa [search_word, findNode] using hw
          subst hiw
          cases s with
          | nil => simp [trieInsert_nil, markWord, get_definition, findNode]
          | cons a s' =>
              rw [trieInsert_nil, get_definition_congr (findNode_markWord_cons _ d a s')]
              simp
  | cons b w' ih =>
      intro t s d hw
      cases s with
      | nil =>
          cases t with
          | node ch iw df =>
              rw [trieInsert_cons]
              simp [get_definition, findNode]
      | cons a s' =>
          by_cases hab : a = b
          · subst hab
            rw [get_definition_congr (findNode_insert_cons_eq t a w' d s')]
            cases hc : childGet t.children a with
            | some n =>
                rw [Option.getD_some]
                have hw' : search_word n w' = false := by
                  rw [← search_word_congr (findNode_cons_some w' hc)]
                  exact hw
                rw [ih n s' d hw', get_definition_congr (findNode_cons_some s' hc)]
                simp
            | none =>
                rw [Option.getD_none, ih emptyNode s' d (search_word_emptyNode w')]
                have h1 : get_definition t (a :: s') = some noDefMsg := by
                  unfold get_definition
                  rw [findNode_cons_none s' hc]
                have h2 : get_definition emptyNode s' = some noDefMsg := by
                  unfold get_definition
                  rw [findNode_emptyNode]
                  by_cases hs : s' = [] <;> simp [hs, emptyNode]
                rw [h1, h2]
                simp
          · rw [get_definition_congr (findNode_insert_cons_ne t b w' d a s' hab)]
            simp [hab]

/-! ## Claim C6 and Claim C8 -/

/-- Claim C6: for every trie built by a sequence of insert operations and every
sequence `s`, `search_prefix s` is true iff some strictly longer inserted word
has `s` as a proper prefix; in particular, for an inserted word with no
strictly longer inserted word extending it, `search_prefix` is false while
`search_word` is true on the same sequence. -/
theorem C6_search_more_build (ws : List (List Char × String)) (s : List Char) :
    (searchMore (buildTrie ws) s = true ↔
       ∃ wd, wd ∈ ws ∧ s <+: wd.1 ∧ s.length < wd.1.length) ∧
    (∀ d, (s, d) ∈ ws → (∀ wd, wd ∈ ws → s <+: wd.1 → wd.1 = s) →
       searchMore (buildTrie ws) s = false ∧ search_word (buildTrie ws) s = true) := by
  refine ⟨searchMore_build ws s, ?_⟩
  intro d hmem hnoext
  constructor
  · cases hsm : searchMore (buildTrie ws) s with
    | false => rfl
    | true =>
        exfalso
        obtain ⟨wd, hw, hp, hlen⟩ := (searchMore_build ws s).mp hsm
        rw [hnoext wd hw hp] at hlen
        exact lt_irrefl _ hlen
  · exact (search_word_build ws s).mpr ⟨d, hmem⟩

/-- Witness for C6: in the dictionary {"a", "ab"}, the word "ab" has no longer
extension, so `search_prefix "ab"` is false while `search_word "ab"` is true. -/
theorem C6_search_more_build_witness :
    searchMore (buildTrie [(['a'], "d1"), (['a', 'b'], "d2")]) ['a', 'b'] = false ∧
    search_word (buildTrie [(['a'], "d1"), (['a', 'b'], "d2")]) ['a', 'b'] = true :=
  (C6_search_more_build [(['a'], "d1"), (['a', 'b'], "d2")] ['a', 'b']).2 "d2"
    (by decide) (by decide)

/-- Claim C8: immediately after `insert S d`, `search_word S` is true, and it
remains true after any further sequence of insert operations. -/
theorem C8_insert_persists (t : TrieNode) (S : List Char) (d : String)
    (rest : List (List Char × String)) :
    search_word (trieInsert t S d) S = true ∧
    search_word (rest.foldl (fun t wd => trieInsert t wd.1 wd.2) (trieInsert t S d)) S
      = true := by
  have h1 : search_word (trieInsert t S d) S = true :=
    (search_word_insert S t S d).mpr (Or.inr rfl)
  exact ⟨h1, (search_word_foldl rest _ S).mpr (Or.inl h1)⟩

/-! ## Dictionary file loading (`DictionaryTrie.load_dictionary` in `trie.py`) -/

/-- Python `str.strip` / regex `\s`: ASCII whitespace characters. -/
def isPySpace (c : Char) : Bool :=
  c = ' ' || c = '\t' || c = '\n' || c = '\x0b' || c = '\x0c' || c = '\r'

/-- Python `str.strip()`. -/
def stripChars (l : List Char) : List Char :=
  ((l.dropWhile isPySpace).reverse.dropWhile isPySpace).reverse

/-- Embeds `re.split(r"\s{2,}", s, maxsplit=1)` restricted to the "did it
split" outcome: splits at the leftmost run of at least two whitespace
characters, greedily consuming the whole run; `none` when no such run exists
(Python then yields a single part and the line is skipped). -/
def splitTwoSpaces : List Char → Option (List Char × List Char)
  | [] => none
  | [_] => none
  | a :: b :: rest =>
      if isPySpace a && isPySpace b then some ([], (b :: rest).dropWhile isPySpace)
      else
        match splitTwoSpaces (b :: rest) with
        | some (w, r) => some (a :: w, r)
        | none => none

/-- Embeds `re.sub(r"\d+$", "", raw_word)`. -/
def stripTrailingDigits (l : List Char) : List Char :=
  (l.reverse.dropWhile Char.isDigit).reverse

/-- Python `str.lower()` (ASCII model). -/
def pyLower (l : List Char) : List Char := l.map Char.toLower

/-- One iteration of the `load_dictionary` loop body: returns the
`(base_word, definition)` pair inserted for this line, or `none` when the line
is skipped (`len(parts) < 2`). -/
def processLine (line : List Char) : Option (List Char × String) :=
  match splitTwoSpaces (stripChars line) with
  | none => none
  | some (w, rest) =>
      some (stripTrailingDigits (pyLower w), String.mk (stripChars rest))

/-- The `load_dictionary` loop folded over a starting trie. -/
def loadFold (lines : List (List Char)) (t : TrieNode) : TrieNode :=
  lines.foldl (fun t line =>
    match processLine line with
    | none => t
    | some (w, d) => trieInsert t w d) t

/-- Embeds `DictionaryTrie.load_dictionary` applied to the lines of the file
(the existence check and `sys.exit` on a missing file are outside the model). -/
def load_dictionary (lines : List (List Char)) : TrieNode :=
  loadFold lines emptyNode

theorem search_word_nil_loadFold (lines : List (List Char)) :
    ∀ t : TrieNode, (∀ line ∈ lines, ∀ wd ∈ processLine line, wd.1 ≠ []) →
      search_word t [] = false → search_word (loadFold lines t) [] = false := by
  induction lines with
  | nil => intro t _ h0; exact h0
  | cons line rest ih =>
      intro t hall h0
      rw [show loadFold (line :: rest) t
            = loadFold rest (match processLine line with
                             | none => t
                             | some (w, d) => trieInsert t w d) from rfl]
      apply ih
      · intro l hl wd hp
        exact hall l (List.mem_cons_of_mem _ hl) wd hp
      · cases hp : processLine line with
        | none => simpa using h0
        | some wd =>
            obtain ⟨w, d⟩ := wd
            have hw : w ≠ [] := hall line (List.mem_cons_self _ _) (w, d) (by rw [hp]; rfl)
            simp only
            cases hres : search_word (trieInsert t w d) [] with
            | false => rfl
            | true =>
                rcases (search_word_insert w t [] d).mp hres with h | h
                · rw [h0] at h
                  exact absurd h (by simp)
                · exact absurd h.symm hw

/-! ## Claim C9 -/

/-- Claim C9 counterexample: a dictionary line whose word token consists
entirely of digits (here `"123  x"`) makes `load_dictionary` insert the empty
word (the trailing-digit stripping `re.sub(r"\d+$", "", raw_word)` erases the
whole token), after which `search_word` on the empty sequence returns true —
refuting "the empty sequence is never a word". -/
theorem C9_counterexample :
    search_word (load_dictionary [String.toList "123  x"]) [] = true := by decide

/-- Claim C9 (amended): after loading any dictionary file none of whose
processed lines has a word token consisting entirely of digits (equivalently:
every inserted base word is non-empty), `search_word` on the empty sequence
returns false. -/
theorem C9_empty_never_word (lines : List (List Char))
    (h : ∀ line ∈ lines, ∀ wd ∈ processLine line, wd.1 ≠ []) :
    search_word (load_dictionary lines) [] = false :=
  search_word_nil_loadFold lines emptyNode h (search_word_emptyNode [])

/-- Witness for the amended C9 at a concrete one-line dictionary. -/
theorem C9_empty_never_word_witness :
    search_word (load_dictionary [String.toList "cat  a feline"]) [] = false :=
  C9_empty_never_word [String.toList "cat  a feline"] (by decide)

/-! ## Dictionary trie, wiktionary variant (`src/SpellChain/wiktionary_impl/trie.py`) -/

/-- Embeds the wiktionary `TrieNode`: children mapping and optional definition;
a node is a word iff its definition is set. -/
inductive WTrieNode : Type where
  | node : List (Char × WTrieNode) → Option String → WTrieNode

def WTrieNode.children : WTrieNode → List (Char × WTrieNode)
  | .node ch _ => ch

def WTrieNode.defn : WTrieNode → Option String
  | .node _ d => d

@[simp] theorem wchildren_node (ch : List (Char × WTrieNode)) (df : Option String) :
    (WTrieNode.node ch df).children = ch := rfl

@[simp] theorem wdefn_node (ch : List (Char × WTrieNode)) (df : Option String) :
    (WTrieNode.node ch df).defn = df := rfl

/-- A freshly constructed wiktionary `TrieNode()`. -/
def emptyW : WTrieNode := .node [] none

/-- `definition if definition else self.NO_DEF`: Python truthiness maps both
`None` and the empty string to the sentinel. -/
def pyDefaultDef : Option String → String
  | some d => if d = "" then noDefMsg else d
  | none => noDefMsg

/-- Embeds the wiktionary `DictionaryTrie.insert`
(`node.children.setdefault(ch, TrieNode())` walk, then
`node.definition = definition if definition else self.NO_DEF`). -/
def winsert : WTrieNode → List Char → Option String → WTrieNode
  | t, [], od => .node t.children (some (pyDefaultDef od))
  | t, c :: cs, od =>
      .node (setChild t.children c
               (winsert ((childGet t.children c).getD emptyW) cs od))
            t.defn

/-- Embeds the wiktionary `DictionaryTrie._find_node`. -/
def wfindNode : WTrieNode → List Char → Option WTrieNode
  | t, [] => some t
  | t, c :: cs =>
      match childGet t.children c with
      | none => none
      | some n => wfindNode n cs

/-- Embeds the wiktionary `DictionaryTrie.search_word`:
`bool(node and node.definition is not None)`. -/
def wsearch_word (t : WTrieNode) (w : List Char) : Bool :=
  match wfindNode t w with
  | some n => n.defn.isSome
  | none => false

/-- Embeds the wiktionary `DictionaryTrie.search_prefix`:
`bool(self._find_node(prefix) and self._find_node(prefix).children)`. -/
def wsearchMore (t : WTrieNode) (p : List Char) : Bool :=
  match wfindNode t p with
  | some n => !n.children.isEmpty
  | none => false

/-- Embeds the wiktionary `DictionaryTrie.get_definition`:
`node.definition if node and node.definition is not None else NO_DEF`. -/
def wget_definition (t : WTrieNode) (w : List Char) : String :=
  match wfindNode t w with
  | some n =>
      match n.defn with
      | some d => d
      | none => noDefMsg
  | none => noDefMsg

/-- A wiktionary trie built by `insert(word, definition)` calls from a fresh
`DictionaryTrie()`. -/
def buildW (ws : List (List Char × String)) : WTrieNode :=
  ws.foldl (fun t wd => winsert t wd.1 (some wd.2)) emptyW

/-! ## Per-insert lemmas for the wiktionary trie -/

theorem winsert_nil (t : WTrieNode) (od : Option String) :
    winsert t [] od = .node t.children (some (pyDefaultDef od)) := rfl

theorem winsert_cons (t : WTrieNode) (b : Char) (w' : List Char) (od : Option String) :
    winsert t (b :: w') od =
      .node (setChild t.children b
               (winsert ((childGet t.children b).getD emptyW) w' od))
            t.defn := rfl

theorem wfindNode_cons (t : WTrieNode) (c : Char) (cs : List Char) :
    wfindNode t (c :: cs) =
      match childGet t.children c with
      | none => none
      | some n => wfindNode n cs := rfl

theorem wfindNode_cons_some {t n : WTrieNode} {b : Char} (s' : List Char)
    (hc : childGet t.children b = some n) : wfindNode t (b :: s') = wfindNode n s' := by
  rw [wfindNode_cons, hc]

theorem wfindNode_cons_none {t : WTrieNode} {b : Char} (s' : List Char)
    (hc : childGet t.children b = none) : wfindNode t (b :: s') = none := by
  rw [wfindNode_cons, hc]

theorem wfindNode_emptyW (s : List Char) :
    wfindNode emptyW s = if s = [] then some emptyW else none := by
  cases s with
  | nil => simp [wfindNode]
  | cons c cs => simp [wfindNode_cons, emptyW, childGet]

theorem wsearch_word_emptyW (s : List Char) : wsearch_word emptyW s = false := by
  cases s with
  | nil => simp [wsearch_word, wfindNode, emptyW]
  | cons c cs => simp [wsearch_word, wfindNode_emptyW]

theorem wsearch_word_congr {t1 t2 : WTrieNode} {s1 s2 : List Char}
    (h : wfindNode t1 s1 = wfindNode t2 s2) : wsearch_word t1 s1 = wsearch_word t2 s2 := by
  unfold wsearch_word
  rw [h]

theorem wget_definition_congr {t1 t2 : WTrieNode} {s1 s2 : List Char}
    (h : wfindNode t1 s1 = wfindNode t2 s2) :
    wget_definition t1 s1 = wget_definition t2 s2 := by
  unfold wget_definition
  rw [h]

theorem wfindNode_winsert_nil_cons (t : WTrieNode) (od : Option String) (a : Char)
    (s' : List Char) : wfindNode (winsert t [] od) (a :: s') = wfindNode t (a :: s') := by
  rw [winsert_nil, wfindNode_cons, wfindNode_cons]
  simp

theorem wfindNode_insert_cons_eq (t : WTrieNode) (b : Char) (w' : List Char)
    (od : Option String) (s' : List Char) :
    wfindNode (winsert t (b :: w') od) (b :: s') =
      wfindNode (winsert ((childGet t.children b).getD emptyW) w' od) s' := by
  rw [winsert_cons, wfindNode_cons]
  simp [childGet_setChild_eq]

theorem wfindNode_insert_cons_ne (t : WTrieNode) (b : Char) (w' : List Char)
    (od : Option String) (a : Char) (s' : List Char) (hab : a ≠ b) :
    wfindNode (winsert t (b :: w') od) (a :: s') = wfindNode t (a :: s') := by
  rw [winsert_cons, wfindNode_cons, wfindNode_cons]
  simp only [wchildren_node]
  rw [childGet_setChild_ne _ _ _ _ hab]

theorem wfindNode_insert_isSome (w : List Char) :
    ∀ (t : WTrieNode) (s : List Char) (od : Option String),
      (wfindNode (winsert t w od) s).isSome ↔ (wfindNode t s).isSome ∨ s <+: w := by
  induction w with
  | nil =>
      intro t s od
      cases s with
      | nil => simp [wfindNode]
      | cons a s' =>
          rw [wfindNode_winsert_nil_cons]
          simp
  | cons b w' ih =>
      intro t s od
      cases s with
      | nil => simp [wfindNode]
      | cons a s' =>
          by_cases hab : a = b
          · subst hab
            rw [wfindNode_insert_cons_eq, ih]
            cases hc : childGet t.children a with
            | some n =>
                rw [Option.getD_some, wfindNode_cons_some s' hc]
                simp [List.cons_prefix_cons]
            | none =>
                rw [Option.getD_none, wfindNode_emptyW, wfindNode_cons_none s' hc]
                by_cases hs : s' = [] <;> simp [hs, List.cons_prefix_cons]
          · rw [wfindNode_insert_cons_ne _ _ _ _ _ _ hab]
            simp [List.cons_prefix_cons, hab]

theorem wsearch_word_insert (w : List Char) :
    ∀ (t : WTrieNode) (s : List Char) (od : Option String),
      wsearch_word (winsert t w od) s = true ↔ wsearch_word t s = true ∨ s = w := by
  induction w with
  | nil =>
      intro t s od
      cases s with
      | nil => simp [wsearch_word, wfindNode, winsert_nil]
      | cons a s' =>
          rw [wsearch_word_congr (wfindNode_winsert_nil_cons t od a s')]
          simp
  | cons b w' ih =>
      intro t s od
      cases s with
      | nil =>
          cases t with
          | node ch df => simp [wsearch_word, wfindNode, winsert_cons]
      | cons a s' =>
          by_cases hab : a = b
          · subst hab
            rw [wsearch_word_congr (wfindNode_insert_cons_eq t a w' od s'), ih]
            cases hc : childGet t.children a with
            | some n =>
                rw [Option.getD_some, wsearch_word_congr (wfindNode_cons_some s' hc)]
                simp
            | none =>
                rw [Option.getD_none]
                have h1 : wsearch_word t (a :: s') = false := by
                  unfold wsearch_word
                  rw [wfindNode_cons_none s' hc]
                rw [h1, wsearch_word_emptyW]
                simp
          · rw [wsearch_word_congr (wfindNode_insert_cons_ne t b w' od a s' hab)]
            simp [hab]

theorem wget_definition_insert (w : List Char) :
    ∀ (t : WTrieNode) (s : List Char) (od : Option String),
      wget_definition (winsert t w od) s =
        if s = w then pyDefaultDef od else wget_definition t s := by
  induction w with
  | nil =>
      intro t s od
      cases s with
      | nil => simp [winsert_nil, wget_definition, wfindNode]
      | cons a s' =>
          rw [wget_definition_congr (wfindNode_winsert_nil_cons t od a s')]
          simp
  | cons b w' ih =>
      intro t s od
      cases s with
      | nil =>
          cases t with
          | node ch df => simp [winsert_cons, wget_definition, wfindNode]
      | cons a s' =>
          by_cases hab : a = b
          · subst hab
            rw [wget_definition_congr (wfindNode_insert_cons_eq t a w' od s')]
            cases hc : childGet t.children a with
            | some n =>
                rw [Option.getD_some, ih n s' od,
                    wget_definition_congr (wfindNode_cons_some s' hc)]
                simp
            | none =>
                rw [Option.getD_none, ih emptyW s' od]
                have h1 : wget_definition t (a :: s') = noDefMsg := by
                  unfold wget_definition
                  rw [wfindNode_cons_none s' hc]
                have h2 : wget_definition emptyW s' = noDefMsg := by
                  unfold wget_definition
                  rw [wfindNode_emptyW]
                  by_cases hs : s' = [] <;> simp [hs, emptyW]
                rw [h1, h2]
                simp
          · rw [wget_definition_congr (wfindNode_insert_cons_ne t b w' od a s' hab)]
            simp [hab]

/-! ## Build-level lemmas for the wiktionary trie -/

theorem wfindNode_append_one (s : List Char) : ∀ (t : WTrieNode) (c : Char),
    wfindNode t (s ++ [c]) = (wfindNode t s).bind (fun n => childGet n.children c) := by
  induction s with
  | nil =>
      intro t c
      cases hc : childGet t.children c with
      | some n => simp [wfindNode, wfindNode_cons_some [] hc, hc]
      | none => simp [wfindNode, wfindNode_cons_none [] hc, hc]
  | cons a s' ih =>
      intro t c
      cases hc : childGet t.children a with
      | some n =>
          rw [List.cons_append, wfindNode_cons_some (s' ++ [c]) hc,
              wfindNode_cons_some s' hc, ih]
      | none =>
          rw [List.cons_append, wfindNode_cons_none (s' ++ [c]) hc,
              wfindNode_cons_none s' hc]
          simp

theorem wsearchMore_iff_exists (t : WTrieNode) (s : List Char) :
    wsearchMore t s = true ↔ ∃ c, (wfindNode t (s ++ [c])).isSome := by
  unfold wsearchMore
  cases hf : wfindNode t s with
  | none => simp [wfindNode_append_one, hf]
  | some n =>
      simp only [wfindNode_append_one, hf, Option.some_bind]
      constructor
      · intro h
        have hne : n.children ≠ [] := by
          cases hch : n.children with
          | nil => rw [hch] at h; simp at h
          | cons p rest => simp [hch]
        obtain ⟨c, hc⟩ := (childGet_isSome_iff_ne_nil n.children).mpr hne
        exact ⟨c, hc⟩
      · rintro ⟨c, hc⟩
        have hne := (childGet_isSome_iff_ne_nil n.children).mp ⟨c, hc⟩
        cases hch : n.children with
        | nil => exact absurd hch hne
        | cons p rest => simp [hch]

theorem wfindNode_foldl_isSome (ws : List (List Char × String)) :
    ∀ (t : WTrieNode) (s : List Char),
      (wfindNode (ws.foldl (fun t wd => winsert t wd.1 (some wd.2)) t) s).isSome ↔
        (wfindNode t s).isSome ∨ ∃ wd, wd ∈ ws ∧ s <+: wd.1 := by
  induction ws with
  | nil => simp
  | cons wd ws ih =>
      intro t s
      rw [List.foldl_cons, ih, wfindNode_insert_isSome]
      constructor
      · rintro ((h | h) | ⟨x, hx, hp⟩)
        · exact Or.inl h
        · exact Or.inr ⟨wd, by simp, h⟩
        · exact Or.inr ⟨x, by simp [hx], hp⟩
      · rintro (h | ⟨x, hx, hp⟩)
        · exact Or.inl (Or.inl h)
        · rcases List.mem_cons.mp hx with h1 | h1
          · exact Or.inl (Or.inr (h1 ▸ hp))
          · exact Or.inr ⟨x, h1, hp⟩

theorem wsearch_word_foldl (ws : List (List Char × String)) :
    ∀ (t : WTrieNode) (s : List Char),
      wsearch_word (ws.foldl (fun t wd => winsert t wd.1 (some wd.2)) t) s = true ↔
        wsearch_word t s = true ∨ ∃ d, (s, d) ∈ ws := by
  induction ws with
  | nil => simp
  | cons wd ws ih =>
      intro t s
      rw [List.foldl_cons, ih, wsearch_word_insert]
      constructor
      · rintro ((h | h) | ⟨d, hd⟩)
        · exact Or.inl h
        · exact Or.inr ⟨wd.2, by simp [h]⟩
        · exact Or.inr ⟨d, by simp [hd]⟩
      · rintro (h | ⟨d, hd⟩)
        · exact Or.inl (Or.inl h)
        · rcases List.mem_cons.mp hd with h1 | h1
          · refine Or.inl (Or.inr ?_)
            have : wd = (s, d) := h1.symm
            rw [this]
          · exact Or.inr ⟨d, h1⟩

theorem wfindNode_build_isSome (ws : List (List Char × String)) (s : List Char) :
    (wfindNode (buildW ws) s).isSome ↔ s = [] ∨ ∃ wd, wd ∈ ws ∧ s <+: wd.1 := by
  unfold buildW
  rw [wfindNode_foldl_isSome, wfindNode_emptyW]
  by_cases hs : s = [] <;> simp [hs]

theorem wsearch_word_build (ws : List (List Char × String)) (s : List Char) :
    wsearch_word (buildW ws) s = true ↔ ∃ d, (s, d) ∈ ws := by
  unfold buildW
  rw [wsearch_word_foldl, wsearch_word_emptyW]
  simp

theorem wsearchMore_build (ws : List (List Char × String)) (s : List Char) :
    wsearchMore (buildW ws) s = true ↔
      ∃ wd, wd ∈ ws ∧ s <+: wd.1 ∧ s.length < wd.1.length := by
  rw [wsearchMore_iff_exists]
  constructor
  · rintro ⟨c, hc⟩
    rw [wfindNode_build_isSome] at hc
    rcases hc with h | ⟨wd, hw, hp⟩
    · exact absurd h (by simp)
    · refine ⟨wd, hw, ?_, ?_⟩
      · exact (show s <+: s ++ [c] from ⟨[c], rfl⟩).trans hp
      · have := hp.length_le
        simp only [List.length_append, List.length_singleton] at this
        omega
  · rintro ⟨wd, hw, hp, hlen⟩
    obtain ⟨tail, htail⟩ := hp
    cases tail with
    | nil => simp [← htail] at hlen
    | cons c cts =>
        refine ⟨c, ?_⟩
        rw [wfindNode_build_isSome]
        exact Or.inr ⟨wd, hw, ⟨cts, by rw [← htail]; simp⟩⟩

/-! ## Claim C10 -/

theorem bool_eq_of_iff {a b : Bool} (h : a = true ↔ b = true) : a = b := by
  cases a <;> cases b <;> simp_all

theorem get_definition_emptyNode (q : List Char) :
    get_definition emptyNode q = some noDefMsg := by
  unfold get_definition
  rw [findNode_emptyNode]
  by_cases hq : q = [] <;> simp [hq, emptyNode]

theorem wget_definition_emptyW (q : List Char) :
    wget_definition emptyW q = noDefMsg := by
  unfold wget_definition
  rw [wfindNode_emptyW]
  by_cases hq : q = [] <;> simp [hq, emptyW]

theorem buildTrie_append (ws : List (List Char × String)) (wd : List Char × String) :
    buildTrie (ws ++ [wd]) = trieInsert (buildTrie ws) wd.1 wd.2 := by
  simp [buildTrie, List.foldl_append]

theorem buildW_append (ws : List (List Char × String)) (wd : List Char × String) :
    buildW (ws ++ [wd]) = winsert (buildW ws) wd.1 (some wd.2) := by
  simp [buildW, List.foldl_append]

theorem search_word_build_false_of_fresh (ws : List (List Char × String)) (w : List Char)
    (hfresh : ∀ p ∈ ws, p.1 ≠ w) : search_word (buildTrie ws) w = false := by
  cases hres : search_word (buildTrie ws) w with
  | false => rfl
  | true =>
      obtain ⟨d, hd⟩ := (search_word_build ws w).mp hres
      exact absurd rfl (hfresh (w, d) hd)

theorem get_definition_build_pair (ws : List (List Char × String))
    (huniq : ws.Pairwise (fun a b => a.1 ≠ b.1)) (hdefs : ∀ wd ∈ ws, wd.2 ≠ "") :
    ∀ q, get_definition (buildTrie ws) q = some (wget_definition (buildW ws) q) := by
  induction ws using List.reverseRecOn with
  | nil =>
      intro q
      rw [show buildTrie [] = emptyNode from rfl, show buildW [] = emptyW from rfl,
          get_definition_emptyNode, wget_definition_emptyW]
  | append_singleton ws wd ih =>
      intro q
      rw [List.pairwise_append] at huniq
      obtain ⟨hu1, _, hcross⟩ := huniq
      have hfresh : ∀ p ∈ ws, p.1 ≠ wd.1 := fun p hp => hcross p hp wd (by simp)
      have hdefs' : ∀ x ∈ ws, x.2 ≠ "" := fun x hx => hdefs x (by simp [hx])
      have hwdef : wd.2 ≠ "" := hdefs wd (by simp)
      rw [buildTrie_append, buildW_append,
          get_definition_insert wd.1 (buildTrie ws) q wd.2
            (search_word_build_false_of_fresh ws wd.1 hfresh),
          wget_definition_insert wd.1 (buildW ws) q (some wd.2)]
      by_cases hq : q = wd.1
      · simp [hq, pyDefaultDef, hwdef]
      · simp [hq, ih hu1 hdefs']

/-- Claim C10: with each word inserted at most once and all definitions
non-empty strings, the two trie implementations (the `is_word`-flag variant in
`trie.py` and the definition-presence variant in `wiktionary_impl/trie.py`)
agree on `search_word`, `search_prefix` and `get_definition` for every query
sequence (the flag variant returns `some` of the string the other variant
returns). -/
theorem C10_variants_agree (ws : List (List Char × String))
    (huniq : ws.Pairwise (fun a b => a.1 ≠ b.1))
    (hdefs : ∀ wd ∈ ws, wd.2 ≠ "") (q : List Char) :
    search_word (buildTrie ws) q = wsearch_word (buildW ws) q ∧
    searchMore (buildTrie ws) q = wsearchMore (buildW ws) q ∧
    get_definition (buildTrie ws) q = some (wget_definition (buildW ws) q) := by
  refine ⟨?_, ?_, get_definition_build_pair ws huniq hdefs q⟩
  · exact bool_eq_of_iff ((search_word_build ws q).trans (wsearch_word_build ws q).symm)
  · exact bool_eq_of_iff ((searchMore_build ws q).trans (wsearchMore_build ws q).symm)

/-- Witness for C10 on the two-word dictionary {"a", "ab"} at the query "a". -/
theorem C10_variants_agree_witness :
    search_word (buildTrie [(['a'], "x"), (['a', 'b'], "y")]) ['a']
      = wsearch_word (buildW [(['a'], "x"), (['a', 'b'], "y")]) ['a'] ∧
    searchMore (buildTrie [(['a'], "x"), (['a', 'b'], "y")]) ['a']
      = wsearchMore (buildW [(['a'], "x"), (['a', 'b'], "y")]) ['a'] ∧
    get_definition (buildTrie [(['a'], "x"), (['a', 'b'], "y")]) ['a']
      = some (wget_definition (buildW [(['a'], "x"), (['a', 'b'], "y")]) ['a']) :=
  C10_variants_agree [(['a'], "x"), (['a', 'b'], "y")] (by decide) (by decide) ['a']

/-! ## GameRoom (`src/SpellChain/server.py`) -/

/-- ANSI color codes from `colors.py`. -/
def colGREEN : String := "\x1b[92m"
def colYELLOW : String := "\x1b[93m"
def colRED : String := "\x1b[91m"
def colBOLD : String := "\x1b[1m"
def colRESET : String := "\x1b[0m"

/-- Embeds `GameRoom.__init__` state.  Sockets are opaque handles modelled as
`Nat`; `clients` is the list of `(client_socket, player_number)` tuples;
`scores` and `found_words` model the `defaultdict`s as association lists
(first-occurrence lookup, defaults 0 and the empty set). -/
structure GameRoom where
  room_id : String
  player_count : Nat
  dictionary : TrieNode
  clients : List (Nat × Nat)
  scores : List (Nat × Nat)
  sequence : List Char
  round_count : Nat
  current_player : Nat
  found_words : List (Nat × List (List Char))

/-- A freshly constructed `GameRoom(room_id, player_count, dictionary)`. -/
def newGameRoom (rid : String) (pc : Nat) (dict : TrieNode) : GameRoom :=
  ⟨rid, pc, dict, [], [], [], 1, 1, []⟩

/-- `defaultdict(int)` read: first binding of `k`, default 0. -/
def alGet : List (Nat × Nat) → Nat → Nat
  | [], _ => 0
  | (k', v) :: rest, k => if k' = k then v else alGet rest k

/-- `self.scores[k] += v` on a `defaultdict(int)`. -/
def alAdd : List (Nat × Nat) → Nat → Nat → List (Nat × Nat)
  | [], k, v => [(k, v)]
  | (k', x) :: rest, k, v =>
      if k' = k then (k', x + v) :: rest else (k', x) :: alAdd rest k v

/-- `defaultdict(set)` read: first binding of `k`, default the empty set. -/
def fwGet : List (Nat × List (List Char)) → Nat → List (List Char)
  | [], _ => []
  | (k', ws) :: rest, k => if k' = k then ws else fwGet rest k

/-- `self.found_words[k].add(w)`: sets are modelled as duplicate-free lists in
insertion order; adding an element already present is a no-op. -/
def fwAdd : List (Nat × List (List Char)) → Nat → List Char → List (Nat × List (List Char))
  | [], k, w => [(k, [w])]
  | (k', ws) :: rest, k, w =>
      if k' = k then (k', if w ∈ ws then ws else ws ++ [w]) :: rest
      else (k', ws) :: fwAdd rest k w

/-- Embeds `GameRoom.is_word_used`:
`any(word in words for words in self.found_words.values())`. -/
def is_word_used (room : GameRoom) (word : List Char) : Bool :=
  room.found_words.any (fun p => decide (word ∈ p.2))

/-- Embeds `GameRoom.switch_player`: `(self.current_player % self.player_count) + 1`. -/
def switch_player (room : GameRoom) : Nat :=
  room.current_player % room.player_count + 1

/-- Result of `GameRoom.add_player`: `(True, player_number)` or
`(False, "Room is already full.")`. -/
inductive AddPlayerRes : Type where
  | ok : Nat → AddPlayerRes
  | full : String → AddPlayerRes
deriving DecidableEq

/-- Embeds `GameRoom.add_player` (the room state after the call together with
the returned tuple). -/
def add_player (room : GameRoom) (sock : Nat) : GameRoom × AddPlayerRes :=
  if room.clients.length ≥ room.player_count then
    (room, .full "Room is already full.")
  else
    let pn := room.clients.length + 1
    ({ room with clients := room.clients ++ [(sock, pn)] }, .ok pn)

/-- A Python exception escaping a handler. -/
inductive PyError : Type where
  | attributeError : String → PyError
deriving DecidableEq

/-- The `game_update` broadcast payload built at the end of
`GameRoom.process_add_character`. -/
structure GameUpdate where
  player : Nat
  char : Char
  messages : List String
  current_player : Nat
  sequence : List Char
  scores : List (Nat × Nat)
  round_count : Nat
deriving DecidableEq

/-- The completed-word message of `process_add_character` (exact f-string,
including the 600-character definition truncation). -/
def completedMsg (pn : Nat) (seq : List Char) (points : Nat) (defn : String) : String :=
  colGREEN ++ colBOLD ++ "*** Player " ++ toString pn ++ " completed \"" ++ String.mk seq
    ++ "\"! (" ++ toString points ++ " Point" ++ (if points ≠ 1 then "s" else "")
    ++ ") ***" ++ colRESET ++ "\n"
    ++ "Definition: " ++ defn.take 600 ++ (if defn.length > 600 then "…" else "")

/-- The already-used message of `process_add_character`. -/
def alreadyUsedMsg (seq : List Char) : String :=
  colYELLOW ++ "\"" ++ String.mk seq ++ "\" has already been used in the SpellChain. "
    ++ "No points this round." ++ colRESET

/-- The round-over message of `process_add_character`. -/
def roundOverMsg (seq : List Char) : String :=
  colRED ++ "\"" ++ String.mk seq ++ "\" is not a valid prefix of any word.\n"
    ++ "Round over. The sequence will reset." ++ colRESET

/-- Embeds `GameRoom.process_add_character`.  When `player_number` is not the
current player the Python code executes `return self.create_error("Not your
turn.")`, but `GameRoom` has no `create_error` attribute, so this raises
`AttributeError` instead of replying; the model returns that exception.
Otherwise the function mutates the room and returns the `game_update`
broadcast. -/
def process_add_character (room : GameRoom) (player_number : Nat) (char : Char) :
    Except PyError (GameRoom × GameUpdate) :=
  if player_number ≠ room.current_player then
    .error (.attributeError "GameRoom object has no attribute create_error")
  else
    let seq1 := room.sequence ++ [char]
    let wordPart :=
      if search_word room.dictionary seq1 then
        if ¬ is_word_used room seq1 then
          let points := max ((seq1.length + 1) / 2) 1
          let defn := (get_definition room.dictionary seq1).getD noDefMsg
          (alAdd room.scores player_number points,
           fwAdd room.found_words player_number seq1,
           [completedMsg player_number seq1 points defn])
        else
          (room.scores, room.found_words, [alreadyUsedMsg seq1])
      else
        (room.scores, room.found_words, ([] : List String))
    let scores1 := wordPart.1
    let found1 := wordPart.2.1
    let msgs1 := wordPart.2.2
    let seqPart :=
      if ¬ searchMore room.dictionary seq1 then
        (([] : List Char), room.round_count + 1, [roundOverMsg seq1])
      else
        (seq1, room.round_count, ([] : List String))
    let seq2 := seqPart.1
    let round2 := seqPart.2.1
    let msgs2 := seqPart.2.2
    let current2 := switch_player room
    let room' : GameRoom :=
      { room with
          sequence := seq2
          round_count := round2
          scores := scores1
          found_words := found1
          current_player := current2 }
    .ok (room', ⟨player_number, char, msgs1 ++ msgs2, current2, seq2, scores1, round2⟩)

/-! ## Lemmas about scores and found-word sets -/

theorem alGet_alAdd_eq (l : List (Nat × Nat)) (k v : Nat) :
    alGet (alAdd l k v) k = alGet l k + v := by
  induction l with
  | nil => simp [alAdd, alGet]
  | cons hd tl ih =>
      obtain ⟨k', x⟩ := hd
      by_cases h : k' = k <;> simp [alAdd, alGet, h, ih]

theorem alGet_alAdd_ne (l : List (Nat × Nat)) (k v q : Nat) (h : q ≠ k) :
    alGet (alAdd l k v) q = alGet l q := by
  have hkq : ¬ k = q := fun hh => h hh.symm
  induction l with
  | nil => simp [alAdd, alGet, hkq]
  | cons hd tl ih =>
      obtain ⟨k', x⟩ := hd
      by_cases hk : k' = k
      · subst hk
        simp [alAdd, alGet, hkq]
      · simp [alAdd, alGet, hk, ih]

theorem fwGet_fwAdd_eq (l : List (Nat × List (List Char))) (k : Nat) (w : List Char) :
    fwGet (fwAdd l k w) k =
      if w ∈ fwGet l k then fwGet l k else fwGet l k ++ [w] := by
  induction l with
  | nil => simp [fwAdd, fwGet]
  | cons hd tl ih =>
      obtain ⟨k', ws⟩ := hd
      by_cases h : k' = k <;> simp [fwAdd, fwGet, h, ih]

theorem fwGet_fwAdd_ne (l : List (Nat × List (List Char))) (k : Nat) (w : List Char)
    (q : Nat) (h : q ≠ k) : fwGet (fwAdd l k w) q = fwGet l q := by
  have hkq : ¬ k = q := fun hh => h hh.symm
  induction l with
  | nil => simp [fwAdd, fwGet, hkq]
  | cons hd tl ih =>
      obtain ⟨k', ws⟩ := hd
      by_cases hk : k' = k
      · subst hk
        simp [fwAdd, fwGet, hkq]
      · simp [fwAdd, fwGet, hk, ih]

/-- If no player's found-word set contains `w`, then in particular player `k`'s
set does not. -/
theorem not_mem_fwGet_of_not_used (l : List (Nat × List (List Char))) (w : List Char)
    (h : l.any (fun p => decide (w ∈ p.2)) = false) (k : Nat) : w ∉ fwGet l k := by
  induction l with
  | nil => simp [fwGet]
  | cons hd tl ih =>
      obtain ⟨k', ws⟩ := hd
      simp only [List.any_cons, Bool.or_eq_false_iff] at h
      obtain ⟨h1, h2⟩ := h
      by_cases hk : k' = k
      · simp only [fwGet, hk, if_pos rfl]
        simpa using h1
      · simp only [fwGet, if_neg hk]
        exact ih h2

/-! ## Claim C4 and Claim C5 -/

/-- Claim C4: in an active room, when the current player's accepted character
completes a dictionary word not yet in any player's found-words set, exactly
`max((L+1)/2, 1)` points are added to the acting player's score and the word
joins that player's set (all other entries unchanged); when the word was
already used by any player, scores and found-words are entirely unchanged. -/
theorem C4_scoring (room : GameRoom) (pn : Nat) (c : Char)
    (hact : room.clients.length = room.player_count)
    (hpn : pn = room.current_player) :
    ∃ room' u, process_add_character room pn c = .ok (room', u) ∧
      ((search_word room.dictionary (room.sequence ++ [c]) = true ∧
        is_word_used room (room.sequence ++ [c]) = false) →
        (alGet room'.scores pn
            = alGet room.scores pn + max (((room.sequence ++ [c]).length + 1) / 2) 1 ∧
         (∀ q, q ≠ pn → alGet room'.scores q = alGet room.scores q) ∧
         fwGet room'.found_words pn
            = fwGet room.found_words pn ++ [room.sequence ++ [c]] ∧
         (∀ q, q ≠ pn → fwGet room'.found_words q = fwGet room.found_words q))) ∧
      ((search_word room.dictionary (room.sequence ++ [c]) = true ∧
        is_word_used room (room.sequence ++ [c]) = true) →
        (room'.scores = room.scores ∧ room'.found_words = room.found_words)) := by
  unfold process_add_character
  rw [if_neg (by simp [hpn])]
  refine ⟨_, _, rfl, ?_, ?_⟩
  · rintro ⟨hw, hu⟩
    constructor
    · simp only [hw, hu, Bool.false_eq_true, not_false_eq_true, if_true, if_pos]
      exact alGet_alAdd_eq room.scores pn _
    · refine ⟨?_, ?_, ?_⟩
      · intro q hq
        simp only [hw, hu, Bool.false_eq_true, not_false_eq_true, if_true, if_pos]
        exact alGet_alAdd_ne _ _ _ _ hq
      · simp only [hw, hu, Bool.false_eq_true, not_false_eq_true, if_true, if_pos]
        rw [fwGet_fwAdd_eq]
        rw [if_neg (not_mem_fwGet_of_not_used room.found_words _ hu pn)]
      · intro q hq
        simp only [hw, hu, Bool.false_eq_true, not_false_eq_true, if_true, if_pos]
        exact fwGet_fwAdd_ne _ _ _ _ hq
  · rintro ⟨hw, hu⟩
    simp only [hw, hu, if_true, if_pos, not_true_eq_false, if_false]
    exact ⟨by trivial, by trivial⟩

/-- Claim C5: in an active room, an accepted character that makes the sequence
fail the prefix check resets the sequence to empty and increments the round
counter by exactly one (whether or not the same character completed a word);
if the prefix check passes, the character is appended and the round counter is
unchanged. -/
theorem C5_round_reset (room : GameRoom) (pn : Nat) (c : Char)
    (hact : room.clients.length = room.player_count)
    (hpn : pn = room.current_player) :
    ∃ room' u, process_add_character room pn c = .ok (room', u) ∧
      (searchMore room.dictionary (room.sequence ++ [c]) = false →
        (room'.sequence = [] ∧ room'.round_count = room.round_count + 1)) ∧
      (searchMore room.dictionary (room.sequence ++ [c]) = true →
        (room'.sequence = room.sequence ++ [c] ∧ room'.round_count = room.round_count)) := by
  unfold process_add_character
  rw [if_neg (by simp [hpn])]
  refine ⟨_, _, rfl, ?_, ?_⟩
  · intro hm
    simp only [hm, Bool.false_eq_true, not_false_eq_true, if_true, if_pos]
    exact ⟨by trivial, by trivial⟩
  · intro hm
    simp only [hm, not_true_eq_false, if_false]
    exact ⟨by trivial, by trivial⟩

/-- A concrete active 2-player room over the dictionary {"cat"}, sequence
`"ca"`, player 1 to move. -/
def wroom1 : GameRoom :=
  { room_id := "ABC123"
    player_count := 2
    dictionary := buildTrie [(['c', 'a', 't'], "a feline")]
    clients := [(10, 1), (11, 2)]
    scores := []
    sequence := ['c', 'a']
    round_count := 1
    current_player := 1
    found_words := [] }

/-- Witness for C4: player 1 plays `t`, completing the unused word "cat". -/
theorem C4_scoring_witness :
    ∃ room' u, process_add_character wroom1 1 't' = .ok (room', u) ∧
      ((search_word wroom1.dictionary (wroom1.sequence ++ ['t']) = true ∧
        is_word_used wroom1 (wroom1.sequence ++ ['t']) = false) →
        (alGet room'.scores 1
            = alGet wroom1.scores 1 + max (((wroom1.sequence ++ ['t']).length + 1) / 2) 1 ∧
         (∀ q, q ≠ 1 → alGet room'.scores q = alGet wroom1.scores q) ∧
         fwGet room'.found_words 1
            = fwGet wroom1.found_words 1 ++ [wroom1.sequence ++ ['t']] ∧
         (∀ q, q ≠ 1 → fwGet room'.found_words q = fwGet wroom1.found_words q))) ∧
      ((search_word wroom1.dictionary (wroom1.sequence ++ ['t']) = true ∧
        is_word_used wroom1 (wroom1.sequence ++ ['t']) = true) →
        (room'.scores = wroom1.scores ∧ room'.found_words = wroom1.found_words)) :=
  C4_scoring wroom1 1 't' rfl rfl

/-- Witness for C5: after "cat" no longer word exists, so the round resets. -/
theorem C5_round_reset_witness :
    ∃ room' u, process_add_character wroom1 1 't' = .ok (room', u) ∧
      (searchMore wroom1.dictionary (wroom1.sequence ++ ['t']) = false →
        (room'.sequence = [] ∧ room'.round_count = wroom1.round_count + 1)) ∧
      (searchMore wroom1.dictionary (wroom1.sequence ++ ['t']) = true →
        (room'.sequence = wroom1.sequence ++ ['t'] ∧
         room'.round_count = wroom1.round_count)) :=
  C5_round_reset wroom1 1 't' rfl rfl

/-! ## Claim C7 -/

/-- A whole sequence of `add_player` calls (ignoring the returned tuples). -/
def applyAdds (room : GameRoom) (socks : List Nat) : GameRoom :=
  socks.foldl (fun r s => (add_player r s).1) room

theorem add_player_player_count (room : GameRoom) (s : Nat) :
    (add_player room s).1.player_count = room.player_count := by
  unfold add_player
  by_cases h : room.clients.length ≥ room.player_count <;> simp [h]

theorem add_player_len_le (room : GameRoom) (s : Nat)
    (h : room.clients.length ≤ room.player_count) :
    (add_player room s).1.clients.length ≤ room.player_count := by
  unfold add_player
  by_cases hc : room.clients.length ≥ room.player_count
  · simpa [hc] using h
  · simp [hc]
    omega

theorem applyAdds_len_le (socks : List Nat) : ∀ room : GameRoom,
    room.clients.length ≤ room.player_count →
    (applyAdds room socks).clients.length ≤ room.player_count := by
  induction socks with
  | nil => intro room h; exact h
  | cons s rest ih =>
      intro room h
      rw [show applyAdds room (s :: rest) = applyAdds (add_player room s).1 rest from rfl]
      have h1 := ih (add_player room s).1
        (by rw [add_player_player_count]; exact add_player_len_le room s h)
      rw [add_player_player_count] at h1
      exact h1

/-- Claim C7: the slot list never exceeds the target player count under any
sequence of `add_player` calls; a call on a full room fails with the
room-full error and leaves the room unchanged; a successful call appends the
new slot with player number `(previous slot count) + 1`. -/
theorem C7_capacity (room : GameRoom) (socks : List Nat) (sock : Nat)
    (hinv : room.clients.length ≤ room.player_count) :
    (applyAdds room socks).clients.length ≤ room.player_count ∧
    (room.clients.length = room.player_count →
       add_player room sock = (room, .full "Room is already full.")) ∧
    (room.clients.length < room.player_count →
       ((add_player room sock).2 = .ok (room.clients.length + 1) ∧
        (add_player room sock).1.clients
          = room.clients ++ [(sock, room.clients.length + 1)])) := by
  refine ⟨applyAdds_len_le socks room hinv, ?_, ?_⟩
  · intro h
    unfold add_player
    rw [if_pos (by omega)]
  · intro h
    unfold add_player
    rw [if_neg (by omega)]
    exact ⟨rfl, rfl⟩

/-- A concrete waiting room with one joined player out of two. -/
def wroom2 : GameRoom :=
  { room_id := "ABC124"
    player_count := 2
    dictionary := buildTrie [(['c', 'a', 't'], "a feline")]
    clients := [(10, 1)]
    scores := []
    sequence := []
    round_count := 1
    current_player := 1
    found_words := [] }

/-- Witness for C7: joining a half-full room succeeds as player 2; the room
can never exceed two slots however many joins follow. -/
theorem C7_capacity_witness :
    (applyAdds wroom2 [11, 12, 13]).clients.length ≤ wroom2.player_count ∧
    (wroom2.clients.length = wroom2.player_count →
       add_player wroom2 11 = (wroom2, .full "Room is already full.")) ∧
    (wroom2.clients.length < wroom2.player_count →
       ((add_player wroom2 11).2 = .ok (wroom2.clients.length + 1) ∧
        (add_player wroom2 11).1.clients
          = wroom2.clients ++ [(11, wroom2.clients.length + 1)])) :=
  C7_capacity wroom2 [11, 12, 13] 11 (by decide)

/-! ## Server layer (`SpellChainServer` in `src/SpellChain/server.py`) -/

/-- Python-string lexicographic order (used by `sorted(words)` in
`GameRoom.remove_player`). -/
def lexLe : List Char → List Char → Bool
  | [], _ => true
  | _ :: _, [] => false
  | a :: as, b :: bs => if a = b then lexLe as bs else decide (a < b)

def insertSorted (w : List Char) : List (List Char) → List (List Char)
  | [] => [w]
  | x :: xs => if lexLe w x then w :: x :: xs else x :: insertSorted w xs

/-- `sorted` on a list of words (insertion sort with `lexLe`). -/
def sortWords : List (List Char) → List (List Char)
  | [] => []
  | x :: xs => insertSorted x (sortWords xs)

/-- The `game_end` broadcast payload of `GameRoom.remove_player`. -/
structure GameEnd where
  player_number : Nat
  reason : String
  scores : List (Nat × Nat)
  found_words : List (Nat × List (List Char))
deriving DecidableEq

/-- Embeds `GameRoom.remove_player`: broadcast `game_end` (with each player's
words sorted), close every slot's socket, and clear the slot list. -/
def room_remove_player (room : GameRoom) (pn : Nat) (reason : String) :
    GameRoom × GameEnd :=
  ({ room with clients := [] },
   { player_number := pn
     reason := reason
     scores := room.scores
     found_words := room.found_words.map (fun p => (p.1, sortWords p.2)) })

/-- The server's room registry `self.rooms` (dict keyed by room id). -/
abbrev Registry := List (String × GameRoom)

def regGet : Registry → String → Option GameRoom
  | [], _ => none
  | (k, r) :: rest, q => if k = q then some r else regGet rest q

def regSet : Registry → String → GameRoom → Registry
  | [], k, r => [(k, r)]
  | (k', r') :: rest, k, r =>
      if k' = k then (k', r) :: rest else (k', r') :: regSet rest k r

/-- `del self.rooms[room_id]` (the key is present whenever this is reached in
the modelled scenarios; on a missing key Python would raise `KeyError`). -/
def regDel : Registry → String → Registry
  | [], _ => []
  | (k', r') :: rest, k => if k' = k then rest else (k', r') :: regDel rest k

theorem regGet_regSet_eq (reg : Registry) (k : String) (r : GameRoom) :
    regGet (regSet reg k r) k = some r := by
  induction reg with
  | nil => simp [regSet, regGet]
  | cons hd tl ih =>
      obtain ⟨k', r'⟩ := hd
      by_cases h : k' = k <;> simp [regSet, regGet, h, ih]

theorem regGet_regSet_ne (reg : Registry) (k : String) (r : GameRoom) (q : String)
    (h : q ≠ k) : regGet (regSet reg k r) q = regGet reg q := by
  have hkq : ¬ k = q := fun hh => h hh.symm
  induction reg with
  | nil => simp [regSet, regGet, hkq]
  | cons hd tl ih =>
      obtain ⟨k', r'⟩ := hd
      by_cases hk : k' = k
      · subst hk
        simp [regSet, regGet, hkq]
      · simp [regSet, regGet, hk, ih]

/-- Embeds `SpellChainServer.remove_player`: delegate to the room's
`remove_player` (the registry entry aliases the mutated room object) and
delete the room from the registry once its slot list is empty. -/
def server_remove_player (reg : Registry) (room : GameRoom) (pn : Nat)
    (reason : String) : Registry × GameRoom × GameEnd :=
  let re := room_remove_player room pn reason
  let reg1 := regSet reg room.room_id re.1
  let reg2 := if re.1.clients.isEmpty then regDel reg1 room.room_id else reg1
  (reg2, re.1, re.2)

/-- A decoded JSON value in a client message field (arrays and objects are
omitted; for the modelled handlers they behave exactly like the other
non-string, non-int cases). -/
inductive JsonVal : Type where
  | jnull : JsonVal
  | jbool : Bool → JsonVal
  | jnum : Int → JsonVal
  | jstr : String → JsonVal
deriving DecidableEq

/-- Messages the server writes to sockets while handling one request. -/
inductive OutMsg : Type where
  | errorReply : String → OutMsg
  | updateBroadcast : GameUpdate → OutMsg
  | endBroadcast : GameEnd → OutMsg
  | createdReply : String → Nat → Nat → OutMsg
deriving DecidableEq

/-- `ALLOWED_PUNCTUATIONS` membership for a single character: dash,
apostrophe (code point 39), slash, space, dot. -/
def allowedPunct (c : Char) : Bool :=
  c = '-' || c = Char.ofNat 39 || c = '/' || c = ' ' || c = '.'

/-- Outcome of serving one `add_character` message on a connection: the
registry afterwards, everything written to sockets, and whether the
connection handler keeps serving the connection. -/
structure ServeResult where
  registry : Registry
  sent : List OutMsg
  alive : Bool

/-- Embeds `SpellChainServer.add_character` together with `handle_client`'s
exception handling.  `binding` is the handler's `(room, player_number)` state
(`none` when unbound).  The Python code runs
`char = message.get("char").lower()` before any validation, so a missing or
non-string `char` field raises `AttributeError`; `handle_client` catches it,
calls `remove_player(room, player_number, "Unexpected error")` (ending the
whole room) and the handler loop exits.  The same happens when
`process_add_character` raises on the missing `create_error` attribute. -/
def serve_add_character (reg : Registry) (binding : Option (GameRoom × Nat))
    (charField : Option JsonVal) : ServeResult :=
  match binding with
  | none => ⟨reg, [.errorReply "You are not part of any room."], true⟩
  | some (room, pn) =>
      if pn = 0 then ⟨reg, [.errorReply "You are not part of any room."], true⟩
      else
        match charField with
        | some (.jstr s) =>
            match s.data.map Char.toLower with
            | [c] =>
                if c.isAlpha || allowedPunct c then
                  match process_add_character room pn c with
                  | .ok (room', u) =>
                      ⟨regSet reg room.room_id room', [.updateBroadcast u], true⟩
                  | .error _ =>
                      let r := server_remove_player reg room pn "Unexpected error"
                      ⟨r.1, [.endBroadcast r.2.2], false⟩
                else ⟨reg, [.errorReply "Invalid character input."], true⟩
            | _ => ⟨reg, [.errorReply "Invalid character input."], true⟩
        | _ =>
            let r := server_remove_player reg room pn "Unexpected error"
            ⟨r.1, [.endBroadcast r.2.2], false⟩

/-- `str(uuid.uuid4())[:6].upper()`. -/
def ridOf (uuid : String) : String :=
  String.mk ((uuid.data.take 6).map Char.toUpper)

/-- Embeds `SpellChainServer.create_room`: validate `player_count`, derive the
room code from the generated UUID string (passed in as an oracle for the
nondeterministic `uuid.uuid4()`), store the room under that code
(`self.rooms[room_id] = room` — replacing any existing entry with the same
code), and register the creating connection as player 1.  Returns the new
registry, the messages sent, and the handler's new `(room, player_number)`
binding. -/
def create_room (dict : TrieNode) (reg : Registry) (pcField : Option JsonVal)
    (uuid : String) (sock : Nat) :
    Registry × List OutMsg × Option (GameRoom × Nat) :=
  match pcField with
  | some (.jnum n) =>
      if 2 ≤ n ∧ n ≤ 4 then
        let rid := ridOf uuid
        let room0 := newGameRoom rid n.toNat dict
        let ar := add_player room0 sock
        let reg' := regSet reg rid ar.1
        match ar.2 with
        | .ok pn => (reg', [.createdReply rid pn n.toNat], some (ar.1, pn))
        | .full msg => (reg', [.errorReply msg], none)
      else (reg, [.errorReply "Invalid player count. Must be between 2 and 4."], none)
  | _ => (reg, [.errorReply "Invalid player count. Must be between 2 and 4."], none)

/-! ## Claim C1 -/

/-- Claim C1 (code bug): in an active room, a character submission from a
player other than the current player does NOT get an error reply with no
state change.  `process_add_character` executes
`return self.create_error("Not your turn.")`, but `GameRoom` has no
`create_error` method, so an `AttributeError` is raised; `handle_client`'s
generic exception handler then removes the player — broadcasting `game_end`,
clearing the slot list, deleting the room from the registry — and the
connection handler exits.  Evaluated here at a concrete active 2-player room
with player 2 submitting `"t"` out of turn. -/
theorem C1_not_your_turn_crash :
    process_add_character wroom1 2 't'
      = .error (.attributeError "GameRoom object has no attribute create_error") ∧
    serve_add_character [("ABC123", wroom1)] (some (wroom1, 2)) (some (.jstr "t"))
      = ⟨[], [.endBroadcast ⟨2, "Unexpected error", [], []⟩], false⟩ :=
  ⟨rfl, rfl⟩

/-! ## Claim C3 -/

/-- Claim C3 (code bug): `add_character` runs
`char = message.get("char").lower()` before its `isinstance` check, so an
`add_character` message with a missing `char` field (or a non-string value)
from a room-bound connection raises `AttributeError` instead of producing an
error reply: the whole room is torn down (`game_end` broadcast, slot list
cleared, registry entry deleted) and the connection stops being served.  A
bad string value, by contrast, does follow the claimed behavior: an error
reply to the submitter only, no state change, connection kept. -/
theorem C3_missing_char_crash :
    serve_add_character [("ABC123", wroom1)] (some (wroom1, 1)) none
      = ⟨[], [.endBroadcast ⟨1, "Unexpected error", [], []⟩], false⟩ ∧
    serve_add_character [("ABC123", wroom1)] (some (wroom1, 1)) (some (.jnum 5))
      = ⟨[], [.endBroadcast ⟨1, "Unexpected error", [], []⟩], false⟩ ∧
    serve_add_character [("ABC123", wroom1)] (some (wroom1, 1)) (some (.jstr "ab"))
      = ⟨[("ABC123", wroom1)], [.errorReply "Invalid character input."], true⟩ :=
  ⟨rfl, rfl, rfl⟩

/-! ## Claim C2 -/

/-- Lowercase hexadecimal digit (the characters a UUID4 string is made of,
apart from the dashes, which cannot occur among its first six characters). -/
def isLowerHex (c : Char) : Bool :=
  (48 ≤ c.toNat && c.toNat ≤ 57) || (97 ≤ c.toNat && c.toNat ≤ 102)

/-- Uppercase alphanumeric character (A–Z or 0–9) in code-point terms. -/
def isUpperAlnumChar (c : Char) : Bool :=
  (65 ≤ c.toNat && c.toNat ≤ 90) || (48 ≤ c.toNat && c.toNat ≤ 57)

theorem toNat_ofNat_valid (n : Nat) (h : n < 55296) : (Char.ofNat n).toNat = n := by
  unfold Char.ofNat
  rw [dif_pos (Or.inl h)]
  unfold Char.ofNatAux
  simp [Char.toNat, UInt32.toNat]

theorem isUpperAlnumChar_toUpper (c : Char) (h : isLowerHex c = true) :
    isUpperAlnumChar (Char.toUpper c) = true := by
  unfold isLowerHex at h
  rw [Bool.or_eq_true] at h
  unfold Char.toUpper
  rcases h with h | h
  · rw [Bool.and_eq_true, decide_eq_true_eq, decide_eq_true_eq] at h
    rw [if_neg (by omega)]
    unfold isUpperAlnumChar
    simp only [Bool.or_eq_true, Bool.and_eq_true, decide_eq_true_eq]
    omega
  · rw [Bool.and_eq_true, decide_eq_true_eq, decide_eq_true_eq] at h
    rw [if_pos (by omega)]
    unfold isUpperAlnumChar
    have ht : (Char.ofNat (c.toNat - 32)).toNat = c.toNat - 32 :=
      toNat_ofNat_valid _ (by omega)
    simp only [ht, Bool.or_eq_true, Bool.and_eq_true, decide_eq_true_eq]
    omega

/-- Claim C2 counterexample: `create_room` never regenerates the code — on a
collision `self.rooms[room_id] = room` silently replaces the existing room's
registry entry.  Concretely: the registry holds a 3-player room under
"ABC123"; a `create_room` request whose generated UUID starts with "abc123"
replaces that entry with the new 2-player room (the registry still has exactly
one entry, now with `player_count = 2`). -/
theorem C2_counterexample :
    ((regGet [("ABC123", newGameRoom "ABC123" 3 emptyNode)] "ABC123").map
        GameRoom.player_count = some 3) ∧
    ((regGet (create_room emptyNode [("ABC123", newGameRoom "ABC123" 3 emptyNode)]
          (some (.jnum 2)) "abc123de-f000-4000-8000-000000000000" 10).1 "ABC123").map
        GameRoom.player_count = some 2) ∧
    (create_room emptyNode [("ABC123", newGameRoom "ABC123" 3 emptyNode)]
        (some (.jnum 2)) "abc123de-f000-4000-8000-000000000000" 10).1.length = 1 := by
  refine ⟨rfl, ?_, rfl⟩
  rfl

/-- Claim C2 (amended): each successful `create_room` stores the new room
under the 6-character uppercase alphanumeric code derived from the generated
UUID, registers the creator as player 1, and leaves every entry under a
different code unchanged; but there is no regeneration on collision — the new
room is stored under its code unconditionally, replacing any existing entry
with the same code. -/
theorem C2_create_room_registry (dict : TrieNode) (reg : Registry) (uuid : String)
    (sock : Nat) (n : Int) (hn : 2 ≤ n ∧ n ≤ 4)
    (hu : 6 ≤ uuid.data.length ∧ ∀ c ∈ uuid.data.take 6, isLowerHex c = true) :
    ((ridOf uuid).data.length = 6 ∧
     ∀ c ∈ (ridOf uuid).data, isUpperAlnumChar c = true) ∧
    regGet (create_room dict reg (some (.jnum n)) uuid sock).1 (ridOf uuid)
      = some { newGameRoom (ridOf uuid) n.toNat dict with clients := [(sock, 1)] } ∧
    (∀ k, k ≠ ridOf uuid →
       regGet (create_room dict reg (some (.jnum n)) uuid sock).1 k = regGet reg k) ∧
    (create_room dict reg (some (.jnum n)) uuid sock).2.2
      = some ({ newGameRoom (ridOf uuid) n.toNat dict with clients := [(sock, 1)] }, 1) := by
  have hpos : (0 : Nat) < n.toNat := by omega
  have hshape : ((ridOf uuid).data.length = 6 ∧
      ∀ c ∈ (ridOf uuid).data, isUpperAlnumChar c = true) := by
    constructor
    · show ((uuid.data.take 6).map Char.toUpper).length = 6
      rw [List.length_map, List.length_take]
      omega
    · intro c hc
      rw [show (ridOf uuid).data = (uuid.data.take 6).map Char.toUpper from rfl] at hc
      obtain ⟨c0, hc0, rfl⟩ := List.mem_map.mp hc
      exact isUpperAlnumChar_toUpper c0 (hu.2 c0 hc0)
  have hadd : add_player (newGameRoom (ridOf uuid) n.toNat dict) sock
      = ({ newGameRoom (ridOf uuid) n.toNat dict with clients := [(sock, 1)] }, .ok 1) := by
    unfold add_player
    rw [if_neg (by simp [newGameRoom]; omega)]
    rfl
  refine ⟨hshape, ?_, ?_, ?_⟩
  · simp only [create_room]
    rw [if_pos hn]
    simp only [hadd]
    exact regGet_regSet_eq reg (ridOf uuid) _
  · intro k hk
    simp only [create_room]
    rw [if_pos hn]
    simp only [hadd]
    exact regGet_regSet_ne reg (ridOf uuid) _ k hk
  · simp only [create_room]
    rw [if_pos hn]
    simp only [hadd]

/-- Witness for the amended C2: creating a 2-player room in an empty registry
with a concrete UUID. -/
theorem C2_create_room_registry_witness :
    (((ridOf "abc123de-f000-4000-8000-000000000000").data.length = 6 ∧
      ∀ c ∈ (ridOf "abc123de-f000-4000-8000-000000000000").data,
        isUpperAlnumChar c = true) ∧
     regGet (create_room emptyNode [] (some (.jnum 2))
         "abc123de-f000-4000-8000-000000000000" 10).1
         (ridOf "abc123de-f000-4000-8000-000000000000")
       = some { newGameRoom (ridOf "abc123de-f000-4000-8000-000000000000") (2 : Int).toNat
                  emptyNode with clients := [(10, 1)] } ∧
     (∀ k, k ≠ ridOf "abc123de-f000-4000-8000-000000000000" →
        regGet (create_room emptyNode [] (some (.jnum 2))
            "abc123de-f000-4000-8000-000000000000" 10).1 k = regGet [] k) ∧
     (create_room emptyNode [] (some (.jnum 2))
         "abc123de-f000-4000-8000-000000000000" 10).2.2
       = some ({ newGameRoom (ridOf "abc123de-f000-4000-8000-000000000000") (2 : Int).toNat
                   emptyNode with clients := [(10, 1)] }, 1)) :=
  C2_create_room_registry emptyNode [] "abc123de-f000-4000-8000-000000000000" 10 2
    (by decide) (by decide)

end SpellChain
